import Mathlib

set_option maxHeartbeats 1000000
set_option linter.unusedVariables false

/-! Verification development for the iaf_cond_nmda_deco2014 NEST extension
module and the neuron-model core it wraps.  The module glue is embedded from
src/tvb_nest/nest/modules/iaf_cond_nmda_deco2014/iaf_cond_nmda_deco2014module.cpp;
the neuron-model core (parameter set, ring buffers, integrator, neuron
instance) is not shipped under src/ and is modelled from the specification. -/

/- ===== Module glue, embedded from iaf_cond_nmda_deco2014module.cpp ===== -/

/-- An entry of the host model registry: a neuron-model factory registered
under a model name (register_node_model of the host kernel). -/
structure RegistryEntry where
  modelName : String
deriving DecidableEq, Repr

/-- The host model registry, in order of registration. -/
abbrev ModelRegistry := List RegistryEntry

/-- The SLI interpreter state that init receives (abstract: the module code
never reads it). -/
structure SLIInterpreter where
  sliStack : List String
deriving DecidableEq, Repr

/-- Embedding of nest kernel model_manager.register_node_model: appends one
factory entry under the given model name. -/
def register_node_model (r : ModelRegistry) (modelName : String) : ModelRegistry :=
  r ++ [⟨modelName⟩]

/-- The module object; the C++ class has no data members of its own. -/
structure ModuleObj where
  dummy : Unit
deriving DecidableEq, Repr

namespace iaf_cond_nmda_deco2014module

/-- Embedding of iaf_cond_nmda_deco2014module::name (line 91 to 95). -/
def name (m : ModuleObj) : String :=
  "iaf_cond_nmda_deco2014module"

/-- Embedding of iaf_cond_nmda_deco2014module::commandstring (line 97 to 102). -/
def commandstring (m : ModuleObj) : String :=
  "(iaf_cond_nmda_deco2014module-init) run"

/-- Embedding of iaf_cond_nmda_deco2014module::init (line 105 to 111): the
single statement registers one node model under the name
iaf_cond_nmda_deco2014, ignoring the interpreter argument. -/
def init (m : ModuleObj) (i : SLIInterpreter) (r : ModelRegistry) : ModelRegistry :=
  register_node_model r ("iaf_cond_nmda_deco2014")

end iaf_cond_nmda_deco2014module

/- ===== Parameter Set (modelled from the spec) ===== -/

/-- Modelled from the spec: the Parameter Set of the iaf_cond_nmda_deco2014
neuron model (the file iaf_cond_nmda_deco2014.h is not under src/).  Named
scalar parameters of the ODE right-hand side, section 3 and 4.1. -/
structure Params where
  C_m : ℚ
  g_L : ℚ
  E_L : ℚ
  E_ex : ℚ
  E_in : ℚ
  V_th : ℚ
  V_reset : ℚ
  t_ref : ℚ
  tau_AMPA : ℚ
  tau_NMDA : ℚ
  tau_GABA : ℚ
  g_AMPA : ℚ
  g_NMDA : ℚ
  g_GABA : ℚ
  I_e : ℚ
deriving DecidableEq, Repr

/-- The recognized parameter names (introspection interface, section 6). -/
inductive ParamName where
  | C_m | g_L | E_L | E_ex | E_in | V_th | V_reset | t_ref
  | tau_AMPA | tau_NMDA | tau_GABA | g_AMPA | g_NMDA | g_GABA | I_e
deriving DecidableEq, Repr

/-- The full recognized name set, fixed per model (section 6). -/
def allParamNames : List ParamName :=
  [.C_m, .g_L, .E_L, .E_ex, .E_in, .V_th, .V_reset, .t_ref,
   .tau_AMPA, .tau_NMDA, .tau_GABA, .g_AMPA, .g_NMDA, .g_GABA, .I_e]

/-- Read one named parameter. -/
def Params.get (p : Params) : ParamName → ℚ
  | .C_m => p.C_m
  | .g_L => p.g_L
  | .E_L => p.E_L
  | .E_ex => p.E_ex
  | .E_in => p.E_in
  | .V_th => p.V_th
  | .V_reset => p.V_reset
  | .t_ref => p.t_ref
  | .tau_AMPA => p.tau_AMPA
  | .tau_NMDA => p.tau_NMDA
  | .tau_GABA => p.tau_GABA
  | .g_AMPA => p.g_AMPA
  | .g_NMDA => p.g_NMDA
  | .g_GABA => p.g_GABA
  | .I_e => p.I_e

/-- Write one named parameter. -/
def Params.setOne (p : Params) : ParamName → ℚ → Params
  | .C_m, v => { p with C_m := v }
  | .g_L, v => { p with g_L := v }
  | .E_L, v => { p with E_L := v }
  | .E_ex, v => { p with E_ex := v }
  | .E_in, v => { p with E_in := v }
  | .V_th, v => { p with V_th := v }
  | .V_reset, v => { p with V_reset := v }
  | .t_ref, v => { p with t_ref := v }
  | .tau_AMPA, v => { p with tau_AMPA := v }
  | .tau_NMDA, v => { p with tau_NMDA := v }
  | .tau_GABA, v => { p with tau_GABA := v }
  | .g_AMPA, v => { p with g_AMPA := v }
  | .g_NMDA, v => { p with g_NMDA := v }
  | .g_GABA, v => { p with g_GABA := v }
  | .I_e, v => { p with I_e := v }

/-- Modelled from the spec: the declared domain of each parameter (time
constants positive, conductances nonnegative, capacitance positive,
refractory time nonnegative; reversal potentials and currents unconstrained),
section 3. -/
def paramValid : ParamName → ℚ → Bool
  | .C_m, v => decide (0 < v)
  | .g_L, v => decide (0 ≤ v)
  | .tau_AMPA, v => decide (0 < v)
  | .tau_NMDA, v => decide (0 < v)
  | .tau_GABA, v => decide (0 < v)
  | .g_AMPA, v => decide (0 ≤ v)
  | .g_NMDA, v => decide (0 ≤ v)
  | .g_GABA, v => decide (0 ≤ v)
  | .t_ref, v => decide (0 ≤ v)
  | _, _ => true

/-- The error raised when a requested parameter value is outside its domain. -/
structure InvalidParameterError where
  pname : ParamName
  value : ℚ
  reason : String
deriving DecidableEq, Repr

/-- Modelled from the spec: set_parameters (section 4.1) validates every entry
of the requested mapping against its declared domain before committing any;
on the first invalid entry it fails with InvalidParameterError and returns the
parameter set unchanged (all-or-nothing transaction). -/
def set_parameters (p : Params) (m : List (ParamName × ℚ)) :
    Option InvalidParameterError × Params :=
  match m.find? (fun e => ! paramValid e.1 e.2) with
  | some e => (some ⟨e.1, e.2, "value outside declared domain"⟩, p)
  | none => (none, m.foldl (fun acc e => acc.setOne e.1 e.2) p)

/-- Modelled from the spec: get_parameters (section 6) returns the mapping
from every recognized name to its current value. -/
def get_parameters (p : Params) : List (ParamName × ℚ) :=
  allParamNames.map (fun nm => (nm, p.get nm))

/-- Modelled from the spec: the documented default Parameter Set (section 4.1,
construct with all named parameters at documented defaults). -/
def defaultParams : Params :=
  { C_m := 250, g_L := 25, E_L := -70, E_ex := 0, E_in := -70,
    V_th := -50, V_reset := -60, t_ref := 2,
    tau_AMPA := 2, tau_NMDA := 100, tau_GABA := 10,
    g_AMPA := 1, g_NMDA := 1, g_GABA := 1, I_e := 0 }

/- ===== Ring Buffers (modelled from the spec) ===== -/

/-- The error raised when an add targets a slot beyond buffer capacity. -/
structure DelayOutOfRangeError where
  delaySteps : ℕ
  capacity : ℕ
deriving DecidableEq, Repr

/-- Modelled from the spec: a Ring Buffer (section 3 and 4.2), a
fixed-capacity circular array with modulo indexing and an owned read
pointer; one per input channel. -/
structure RingBuffer where
  slots : List ℚ
  readPtr : ℕ
deriving DecidableEq, Repr

/-- The fixed capacity of the buffer. -/
def RingBuffer.capacity (b : RingBuffer) : ℕ :=
  b.slots.length

/-- A freshly allocated buffer: all slots zero, read pointer at the start. -/
def RingBuffer.mk0 (cap : ℕ) : RingBuffer :=
  ⟨List.replicate cap 0, 0⟩

/-- Modelled from the spec: add (section 4.2) accumulates the weight into the
slot delaySteps ahead of the current read pointer; the delay must be within
buffer capacity or the call fails with DelayOutOfRangeError. -/
def RingBuffer.add (b : RingBuffer) (d : ℕ) (w : ℚ) :
    Except DelayOutOfRangeError RingBuffer :=
  if d < b.capacity then
    let i := (b.readPtr + d) % b.capacity
    .ok ⟨b.slots.set i (b.slots.getD i 0 + w), b.readPtr⟩
  else
    .error ⟨d, b.capacity⟩

/-- Modelled from the spec: drain (section 4.2) returns and zeroes the value
at the current read pointer, then advances the pointer by one step. -/
def RingBuffer.drain (b : RingBuffer) : ℚ × RingBuffer :=
  let i := b.readPtr % b.capacity
  (b.slots.getD i 0, ⟨b.slots.set i 0, (b.readPtr + 1) % b.capacity⟩)

/-- Iterated drain, discarding the drained values. -/
def RingBuffer.drainN (b : RingBuffer) : ℕ → RingBuffer
  | 0 => b
  | n + 1 => (b.drain).2.drainN n

/- ===== State Vector, extended values, Right-Hand-Side, Integrator
       (modelled from the spec) ===== -/

/-- Modelled from the spec: the State Vector of one neuron instance
(section 3): membrane potential, three synaptic gating variables, and the
refractory countdown. -/
structure State where
  V : ℚ
  s_AMPA : ℚ
  s_NMDA : ℚ
  s_GABA : ℚ
  refr : ℚ
deriving DecidableEq, Repr

/-- Modelled from the spec: an intermediate numeric result of integration,
either finite or non-finite (NaN or Inf); arithmetic propagates
non-finiteness and division by zero produces a non-finite value
(section 4.3 and 4.4 failure semantics). -/
inductive XVal where
  | fin (q : ℚ)
  | nonfin
deriving DecidableEq, Repr

/-- Extended addition. -/
def XVal.add : XVal → XVal → XVal
  | .fin a, .fin b => .fin (a + b)
  | _, _ => .nonfin

/-- Extended subtraction. -/
def XVal.sub : XVal → XVal → XVal
  | .fin a, .fin b => .fin (a - b)
  | _, _ => .nonfin

/-- Extended multiplication. -/
def XVal.mul : XVal → XVal → XVal
  | .fin a, .fin b => .fin (a * b)
  | _, _ => .nonfin

/-- Extended division: division by zero is non-finite. -/
def XVal.div : XVal → XVal → XVal
  | .fin a, .fin b => if b = 0 then .nonfin else .fin (a / b)
  | _, _ => .nonfin

/-- Modelled from the spec: the instantaneous inputs for one sub-step, the
values drained from the four Ring Buffers (section 4.4, step 1). -/
structure Inputs where
  ampa : ℚ
  nmda : ℚ
  gaba : ℚ
  curr : ℚ
deriving DecidableEq, Repr

/-- The names of the integrated state variables, used to report numerical
instability. -/
inductive VarName where
  | V | s_AMPA | s_NMDA | s_GABA
deriving DecidableEq, Repr

/-- Modelled from the spec: run-time numerical failure, fatal, identifying
the step and the variable (section 4.4). -/
structure NumericalInstabilityError where
  step : ℕ
  var : VarName
deriving DecidableEq, Repr

/-- Modelled from the spec: the membrane-potential derivative of the
Right-Hand-Side Evaluator (section 4.3): minus leak current, minus the
conductance-weighted synaptic currents, plus external currents, all divided
by the membrane capacitance. -/
def membraneDeriv (p : Params) (st : State) (inp : Inputs) : XVal :=
  XVal.div
    (XVal.fin
      (-(p.g_L * (st.V - p.E_L))
        - p.g_AMPA * st.s_AMPA * (st.V - p.E_ex)
        - p.g_NMDA * st.s_NMDA * (st.V - p.E_ex)
        - p.g_GABA * st.s_GABA * (st.V - p.E_in)
        + p.I_e + inp.curr))
    (XVal.fin p.C_m)

/-- Modelled from the spec: a synaptic gating derivative (section 4.3):
driving term from spike input minus decay term proportional to one over the
channel time constant. -/
def gatingDeriv (tau : ℚ) (s : ℚ) (spikeIn : ℚ) : XVal :=
  XVal.sub (XVal.fin spikeIn) (XVal.div (XVal.fin s) (XVal.fin tau))

/-- One explicit fixed-step Euler update of a single variable. -/
def eulerVal (x : ℚ) (h : ℚ) (d : XVal) : XVal :=
  XVal.add (XVal.fin x) (XVal.mul (XVal.fin h) d)

/-- The Euler step of the three gating variables, shared by the refractory
and the non-refractory paths of the Integrator (section 4.4, refractory
handling: synaptic decay continues integrating normally). -/
def gatingStep (p : Params) (h : ℚ) (st : State) (inp : Inputs) :
    XVal × XVal × XVal :=
  (eulerVal st.s_AMPA h (gatingDeriv p.tau_AMPA st.s_AMPA inp.ampa),
   eulerVal st.s_NMDA h (gatingDeriv p.tau_NMDA st.s_NMDA inp.nmda),
   eulerVal st.s_GABA h (gatingDeriv p.tau_GABA st.s_GABA inp.gaba))

/-- Modelled from the spec: one Integrator sub-step (section 4.4).  While the
refractory countdown is positive the potential is held at the reset value and
only the gating variables integrate; otherwise all variables advance by one
Euler step, the threshold condition is tested, and on a crossing the reset
rule is applied and a spike is flagged.  Any non-finite intermediate aborts
with NumericalInstabilityError naming the step and variable. -/
def stepOnce (p : Params) (h : ℚ) (k : ℕ) (st : State) (inp : Inputs) :
    Except NumericalInstabilityError (State × Bool) :=
  if 0 < st.refr then
    match gatingStep p h st inp with
    | (.fin a, .fin n, .fin g) =>
        .ok ({ V := p.V_reset, s_AMPA := a, s_NMDA := n, s_GABA := g,
               refr := max (st.refr - h) 0 }, false)
    | (.nonfin, _, _) => .error ⟨k, .s_AMPA⟩
    | (_, .nonfin, _) => .error ⟨k, .s_NMDA⟩
    | (_, _, .nonfin) => .error ⟨k, .s_GABA⟩
  else
    match eulerVal st.V h (membraneDeriv p st inp), gatingStep p h st inp with
    | .fin v, (.fin a, .fin n, .fin g) =>
        if p.V_th ≤ v then
          .ok ({ V := p.V_reset, s_AMPA := a, s_NMDA := n, s_GABA := g,
                 refr := p.t_ref }, true)
        else
          .ok ({ V := v, s_AMPA := a, s_NMDA := n, s_GABA := g,
                 refr := 0 }, false)
    | .nonfin, _ => .error ⟨k, .V⟩
    | _, (.nonfin, _, _) => .error ⟨k, .s_AMPA⟩
    | _, (_, .nonfin, _) => .error ⟨k, .s_NMDA⟩
    | _, (_, _, .nonfin) => .error ⟨k, .s_GABA⟩

/-- The first non-finite intermediate of one sub-step, if any: the variable
whose integration produced NaN or Inf. -/
def stepNonfinVar (p : Params) (h : ℚ) (st : State) (inp : Inputs) :
    Option VarName :=
  if 0 < st.refr then
    match gatingStep p h st inp with
    | (.fin _, .fin _, .fin _) => none
    | (.nonfin, _, _) => some .s_AMPA
    | (_, .nonfin, _) => some .s_NMDA
    | (_, _, .nonfin) => some .s_GABA
  else
    match eulerVal st.V h (membraneDeriv p st inp), gatingStep p h st inp with
    | .fin _, (.fin _, .fin _, .fin _) => none
    | .nonfin, _ => some .V
    | _, (.nonfin, _, _) => some .s_AMPA
    | _, (_, .nonfin, _) => some .s_NMDA
    | _, (_, _, .nonfin) => some .s_GABA

/-- Modelled from the spec: the update loop (section 4.4) over a number of
sub-steps, threading the state, collecting the step indices at which spikes
were emitted, and aborting on the first numerical failure. -/
def updateAux (p : Params) (h : ℚ) (sched : ℕ → Inputs) :
    ℕ → ℕ → State → Except NumericalInstabilityError (State × List ℕ)
  | k, 0, st => .ok (st, [])
  | k, n + 1, st =>
    match stepOnce p h k st (sched k) with
    | .error e => .error e
    | .ok (st', sp) =>
      match updateAux p h sched (k + 1) n st' with
      | .error e => .error e
      | .ok (stf, spikes) => .ok (stf, (if sp then [k] else []) ++ spikes)

/-- Modelled from the spec: update(from, to) (section 4.4) advances the state
over the discrete sub-steps in the interval, with per-step inputs already
drained from the Ring Buffers by the Neuron Instance. -/
def update (p : Params) (h : ℚ) (sched : ℕ → Inputs)
    (fromStep toStep : ℕ) (st : State) :
    Except NumericalInstabilityError (State × List ℕ) :=
  updateAux p h sched fromStep (toStep - fromStep) st

/-- The per-step trajectory of the Integrator: the state after n sub-steps
from step index zero, paired with the spike flag of the last performed step;
none once a numerical failure has occurred. -/
def stepRes (p : Params) (h : ℚ) (sched : ℕ → Inputs) (st0 : State) :
    ℕ → Option (State × Bool)
  | 0 => some (st0, false)
  | n + 1 =>
    match stepRes p h sched st0 n with
    | some (st, _) => (stepOnce p h n st (sched n)).toOption
    | none => none

/-- Modelled from the spec: the rest state used by the fixed-point scenario
(section 8): potential at the leak reversal, gating variables and refractory
countdown at zero. -/
def restState (p : Params) : State :=
  { V := p.E_L, s_AMPA := 0, s_NMDA := 0, s_GABA := 0, refr := 0 }

/-- The zero input schedule: no buffered events on any step. -/
def zeroSched : ℕ → Inputs :=
  fun _ => ⟨0, 0, 0, 0⟩

/- ===== Neuron Instance and event handling (modelled from the spec) ===== -/

/-- The synaptic input channels of the model (section 3). -/
inductive Channel where
  | ampa | nmda | gaba
deriving DecidableEq, Repr

/-- Modelled from the spec: the events the host delivers (section 6): spike
events carrying a receptor channel, a delay and a weight, and current events
carrying a delay and a value. -/
inductive Event where
  | spike (ch : Channel) (delaySteps : ℕ) (weight : ℚ)
  | current (delaySteps : ℕ) (value : ℚ)
deriving DecidableEq, Repr

/-- Modelled from the spec: the Neuron Instance (section 4.5), the
composition root owning one Parameter Set, one State Vector and the Ring
Buffers, one per input channel. -/
structure NeuronInstance where
  params : Params
  st : State
  bufAMPA : RingBuffer
  bufNMDA : RingBuffer
  bufGABA : RingBuffer
  bufCurr : RingBuffer
deriving DecidableEq, Repr

/-- Modelled from the spec: construction of a Neuron Instance (section 3):
buffers allocated once, sized to the host minimum delay, state at rest. -/
def NeuronInstance.construct (p : Params) (cap : ℕ) : NeuronInstance :=
  ⟨p, restState p, RingBuffer.mk0 cap, RingBuffer.mk0 cap,
   RingBuffer.mk0 cap, RingBuffer.mk0 cap⟩

/-- Modelled from the spec: handle (section 4.5) delegates an incoming event
to the add operation of the matching Ring Buffer. -/
def NeuronInstance.handle (inst : NeuronInstance) :
    Event → Except DelayOutOfRangeError NeuronInstance
  | .spike .ampa d w =>
    match inst.bufAMPA.add d w with
    | .error e => .error e
    | .ok b => .ok { inst with bufAMPA := b }
  | .spike .nmda d w =>
    match inst.bufNMDA.add d w with
    | .error e => .error e
    | .ok b => .ok { inst with bufNMDA := b }
  | .spike .gaba d w =>
    match inst.bufGABA.add d w with
    | .error e => .error e
    | .ok b => .ok { inst with bufGABA := b }
  | .current d v =>
    match inst.bufCurr.add d v with
    | .error e => .error e
    | .ok b => .ok { inst with bufCurr := b }

/-- Deliver a list of events in order (the host may call handle any number
of times per step before update, section 6). -/
def NeuronInstance.deliver (inst : NeuronInstance) :
    List Event → Except DelayOutOfRangeError NeuronInstance
  | [] => .ok inst
  | e :: rest =>
    match inst.handle e with
    | .error err => .error err
    | .ok inst' => inst'.deliver rest

/-- Modelled from the spec: one Neuron Instance step (section 4.4, step 1
then step 2): drain all Ring Buffers for this sub-step, feed the drained
values as instantaneous inputs to the Integrator sub-step. -/
def NeuronInstance.instStep (inst : NeuronInstance) (h : ℚ) (k : ℕ) :
    Except NumericalInstabilityError (NeuronInstance × Bool) :=
  let da := inst.bufAMPA.drain
  let dn := inst.bufNMDA.drain
  let dg := inst.bufGABA.drain
  let dc := inst.bufCurr.drain
  match stepOnce inst.params h k inst.st ⟨da.1, dn.1, dg.1, dc.1⟩ with
  | .error e => .error e
  | .ok (st', sp) =>
    .ok ({ params := inst.params, st := st', bufAMPA := da.2,
           bufNMDA := dn.2, bufGABA := dg.2, bufCurr := dc.2 }, sp)

/-- A run-time error of a full instance run: either a buffer delay error
during delivery or a numerical error during integration. -/
inductive RunError where
  | buf (e : DelayOutOfRangeError)
  | num (e : NumericalInstabilityError)
deriving DecidableEq, Repr

/-- Modelled from the spec: a full deterministic run of one Neuron Instance
(section 5 and 8): on each step, deliver the scheduled events, then perform
one update sub-step; abort on the first error. -/
def runInst (h : ℚ) (sched : ℕ → List Event) :
    ℕ → ℕ → NeuronInstance → Except RunError NeuronInstance
  | k, 0, inst => .ok inst
  | k, n + 1, inst =>
    match inst.deliver (sched k) with
    | .error e => .error (.buf e)
    | .ok inst1 =>
      match inst1.instStep h k with
      | .error e => .error (.num e)
      | .ok (inst2, _) => runInst h sched (k + 1) n inst2

/- ===== Concrete inputs used by the closed witness statements ===== -/

/-- A parameter set with a zero AMPA time constant: integrating the AMPA
gating variable divides by zero, a non-finite intermediate. -/
def badTauParams : Params :=
  { defaultParams with tau_AMPA := 0 }

/-- An input schedule delivering one strong current on every step. -/
def bigCurrSched : ℕ → Inputs :=
  fun _ => ⟨0, 0, 0, 100000⟩

/-- The state reached right after the spike in the witness run: potential at
the reset value, refractory countdown at the refractory time. -/
def spikeSt : State :=
  { V := -60, s_AMPA := 0, s_NMDA := 0, s_GABA := 0, refr := 2 }

/-- An invalid requested mapping: a valid entry, an entry outside its domain
(a negative time constant) and another valid entry. -/
def invalidMapping : List (ParamName × ℚ) :=
  [(.g_L, 5), (.tau_AMPA, -1), (.E_L, -65)]

/-- A requested mapping covering every recognized name with valid values. -/
def fullValidMapping : List (ParamName × ℚ) :=
  [(.C_m, 200), (.g_L, 10), (.E_L, -65), (.E_ex, 0), (.E_in, -80),
   (.V_th, -52), (.V_reset, -59), (.t_ref, 3),
   (.tau_AMPA, 3), (.tau_NMDA, 90), (.tau_GABA, 8),
   (.g_AMPA, 2), (.g_NMDA, 1), (.g_GABA, 4), (.I_e, 120)]

/-- An event schedule delivering no events. -/
def emptyEvSched : ℕ → List Event :=
  fun _ => []

/-- A small concrete two-slot buffer holding the values 3 and 5. -/
def demoBuf : RingBuffer :=
  ⟨[3, 5], 0⟩

/- ===== Helper lemmas ===== -/

theorem stepOnce_spike {p : Params} {h : ℚ} {k : ℕ} {st : State} {inp : Inputs}
    {st' : State} (hs : stepOnce p h k st inp = .ok (st', true)) :
    st'.V = p.V_reset ∧ st'.refr = p.t_ref := by
  unfold stepOnce at hs
  split at hs
  · split at hs <;> simp_all
  · split at hs
    · split at hs
      · simp only [Except.ok.injEq, Prod.mk.injEq] at hs
        rw [← hs.1]
        exact ⟨rfl, rfl⟩
      · simp_all
    all_goals simp_all

theorem stepOnce_refractory {p : Params} {h : ℚ} {k : ℕ} {st : State}
    {inp : Inputs} {st' : State} {b : Bool} (hr : 0 < st.refr)
    (hs : stepOnce p h k st inp = .ok (st', b)) :
    st'.V = p.V_reset ∧ b = false ∧
      gatingStep p h st inp =
        (XVal.fin st'.s_AMPA, XVal.fin st'.s_NMDA, XVal.fin st'.s_GABA) := by
  unfold stepOnce at hs
  rw [if_pos hr] at hs
  split at hs
  · simp only [Except.ok.injEq, Prod.mk.injEq] at hs
    refine ⟨?_, hs.2.symm, ?_⟩
    · rw [← hs.1]
    · rw [← hs.1]
      assumption
  all_goals simp_all

theorem stepRes_succ {p : Params} {h : ℚ} {sched : ℕ → Inputs} {st0 : State}
    {n : ℕ} {st'' : State} {b'' : Bool}
    (hs : stepRes p h sched st0 (n + 1) = some (st'', b'')) :
    ∃ st b, stepRes p h sched st0 n = some (st, b) ∧
      stepOnce p h n st (sched n) = .ok (st'', b'') := by
  unfold stepRes at hs
  split at hs
  · rename_i st b heq
    refine ⟨st, b, heq, ?_⟩
    cases hso : stepOnce p h n st (sched n) <;> simp [hso, Except.toOption] at hs
    simp [hs]
  · simp at hs

theorem stepOnce_error_of_nonfin {p : Params} {h : ℚ} {k : ℕ} {st : State}
    {inp : Inputs} {var : VarName}
    (hv : stepNonfinVar p h st inp = some var) :
    stepOnce p h k st inp = .error ⟨k, var⟩ := by
  unfold stepNonfinVar at hv
  unfold stepOnce
  by_cases hr : 0 < st.refr
  · rw [if_pos hr] at hv ⊢
    rcases hg : gatingStep p h st inp with ⟨a, n, g⟩
    cases a <;> cases n <;> cases g <;> simp_all
  · rw [if_neg hr] at hv ⊢
    rcases hg : gatingStep p h st inp with ⟨a, n, g⟩
    cases hm : eulerVal st.V h (membraneDeriv p st inp) <;>
      cases a <;> cases n <;> cases g <;> simp_all

theorem updateAux_zero (p : Params) (h : ℚ) (sched : ℕ → Inputs) (k : ℕ)
    (st : State) : updateAux p h sched k 0 st = .ok (st, []) :=
  rfl

theorem updateAux_succ_err {p : Params} {h : ℚ} {sched : ℕ → Inputs}
    {k n : ℕ} {st : State} {e : NumericalInstabilityError}
    (hs : stepOnce p h k st (sched k) = .error e) :
    updateAux p h sched k (n + 1) st = .error e := by
  unfold updateAux
  rw [hs]

theorem updateAux_succ_ok {p : Params} {h : ℚ} {sched : ℕ → Inputs}
    {k n : ℕ} {st st1 : State} {sp : Bool}
    (hs : stepOnce p h k st (sched k) = .ok (st1, sp)) :
    updateAux p h sched k (n + 1) st =
      match updateAux p h sched (k + 1) n st1 with
      | .error e => .error e
      | .ok (stf, spikes) => .ok (stf, (if sp then [k] else []) ++ spikes) := by
  simp only [updateAux]
  rw [hs]

theorem updateAux_extend_error (p : Params) (h : ℚ) (sched : ℕ → Inputs) :
    ∀ (n k : ℕ) (st stk : State) (log : List ℕ)
      (e : NumericalInstabilityError) (m : ℕ),
      updateAux p h sched k n st = .ok (stk, log) →
      stepOnce p h (k + n) stk (sched (k + n)) = .error e →
      n < m →
      updateAux p h sched k m st = .error e := by
  intro n
  induction n with
  | zero =>
    intro k st stk log e m hok hse hlt
    rw [updateAux_zero] at hok
    simp only [Except.ok.injEq, Prod.mk.injEq] at hok
    simp only [Nat.add_zero] at hse
    rw [← hok.1] at hse
    cases m with
    | zero => omega
    | succ m' => exact updateAux_succ_err hse
  | succ n ih =>
    intro k st stk log e m hok hse hlt
    cases hs1 : stepOnce p h k st (sched k) with
    | error e1 => rw [updateAux_succ_err hs1] at hok; simp at hok
    | ok pr =>
      obtain ⟨st1, sp⟩ := pr
      rw [updateAux_succ_ok hs1] at hok
      cases hrec : updateAux p h sched (k + 1) n st1 with
      | error e1 => rw [hrec] at hok; simp at hok
      | ok pr2 =>
        obtain ⟨st2, log2⟩ := pr2
        rw [hrec] at hok
        simp only [Except.ok.injEq, Prod.mk.injEq] at hok
        cases m with
        | zero => omega
        | succ m' =>
          have hkn : k + 1 + n = k + (n + 1) := by omega
          have hrest : updateAux p h sched (k + 1) m' st1 = .error e := by
            apply ih (k + 1) st1 stk log2 e m'
            · rw [hrec, hok.1]
            · rw [hkn]
              exact hse
            · omega
          rw [updateAux_succ_ok hs1, hrest]

theorem getD_set_self (l : List ℚ) (i : ℕ) (a : ℚ) (hi : i < l.length) :
    (l.set i a).getD i 0 = a := by
  rw [List.getD_eq_getElem?_getD, List.getElem?_set_self hi]
  rfl

theorem getD_set_ne (l : List ℚ) (i j : ℕ) (a : ℚ) (hij : i ≠ j) :
    (l.set i a).getD j 0 = l.getD j 0 := by
  rw [List.getD_eq_getElem?_getD, List.getElem?_set_ne hij,
    ← List.getD_eq_getElem?_getD]

theorem RingBuffer.capacity_drain (b : RingBuffer) :
    (b.drain).2.capacity = b.capacity := by
  unfold RingBuffer.drain RingBuffer.capacity
  simp [List.length_set]

theorem RingBuffer.drainN_capacity (b : RingBuffer) :
    ∀ n, (b.drainN n).capacity = b.capacity := by
  intro n
  induction n generalizing b with
  | zero => rfl
  | succ n ih =>
    unfold RingBuffer.drainN
    rw [ih (b.drain).2, RingBuffer.capacity_drain]

theorem RingBuffer.drainN_readPtr (b : RingBuffer) (hc : 0 < b.capacity) :
    ∀ n, b.readPtr < b.capacity →
      (b.drainN n).readPtr = (b.readPtr + n) % b.capacity := by
  intro n
  induction n generalizing b with
  | zero =>
    intro hp
    exact (Nat.mod_eq_of_lt hp).symm
  | succ n ih =>
    intro hp
    unfold RingBuffer.drainN
    have hc' : 0 < (b.drain).2.capacity := by
      rw [RingBuffer.capacity_drain]
      exact hc
    have hp' : (b.drain).2.readPtr < (b.drain).2.capacity := by
      rw [RingBuffer.capacity_drain]
      exact Nat.mod_lt _ hc
    rw [ih (b.drain).2 hc' hp']
    rw [RingBuffer.capacity_drain]
    show ((b.readPtr + 1) % b.capacity + n) % b.capacity = _
    rw [Nat.mod_add_mod]
    congr 1
    omega

theorem RingBuffer.drainN_getD_preserved (b : RingBuffer) :
    ∀ n j, (∀ i < n, (b.readPtr + i) % b.capacity ≠ j) →
      (b.drainN n).slots.getD j 0 = b.slots.getD j 0 := by
  intro n
  induction n generalizing b with
  | zero => intro j _; rfl
  | succ n ih =>
    intro j hne
    unfold RingBuffer.drainN
    have h1 : (b.drain).2.slots.getD j 0 = b.slots.getD j 0 := by
      show (b.slots.set (b.readPtr % b.capacity) 0).getD j 0 = _
      apply getD_set_ne
      have := hne 0 (Nat.succ_pos n)
      simpa using this
    rw [ih (b.drain).2 j ?_, h1]
    intro i hi
    show ((b.readPtr + 1) % b.capacity + i) % (b.drain).2.capacity ≠ j
    rw [RingBuffer.capacity_drain, Nat.mod_add_mod]
    have := hne (i + 1) (by omega)
    have harr : b.readPtr + 1 + i = b.readPtr + (i + 1) := by omega
    rw [harr]
    exact this

theorem RingBuffer.drainN_getD_zero (b : RingBuffer) :
    ∀ n j, b.slots.getD j 0 = 0 → (b.drainN n).slots.getD j 0 = 0 := by
  intro n
  induction n generalizing b with
  | zero => intro j hz; exact hz
  | succ n ih =>
    intro j hz
    unfold RingBuffer.drainN
    apply ih
    show (b.slots.set (b.readPtr % b.capacity) 0).getD j 0 = 0
    by_cases hj : j < b.slots.length
    · by_cases hij : b.readPtr % b.capacity = j
      · rw [← hij] at hj ⊢
        exact getD_set_self _ _ _ hj
      · rw [getD_set_ne _ _ _ _ hij]
        exact hz
    · apply List.getD_eq_default
      rw [List.length_set]
      omega

theorem mk0_add_twice (cap d : ℕ) (w1 w2 : ℚ) (hd : d < cap) :
    (RingBuffer.mk0 cap).add d w1 =
        .ok ⟨(List.replicate cap (0 : ℚ)).set d w1, 0⟩ ∧
      (RingBuffer.add ⟨(List.replicate cap (0 : ℚ)).set d w1, 0⟩ d w2) =
        .ok ⟨(List.replicate cap (0 : ℚ)).set d (w1 + w2), 0⟩ := by
  have hcap : (RingBuffer.mk0 cap).capacity = cap := by
    unfold RingBuffer.mk0 RingBuffer.capacity
    simp
  have hcap1 : RingBuffer.capacity ⟨(List.replicate cap (0 : ℚ)).set d w1, 0⟩ = cap := by
    unfold RingBuffer.capacity
    simp
  have hdm : (0 + d) % cap = d := by
    rw [Nat.zero_add, Nat.mod_eq_of_lt hd]
  have hrep : (List.replicate cap (0 : ℚ)).getD d 0 = 0 := by
    rw [List.getD_eq_getElem?_getD, List.getElem?_replicate, if_pos hd]
    rfl
  constructor
  · unfold RingBuffer.add
    rw [hcap, if_pos hd]
    unfold RingBuffer.mk0
    simp only [hdm]
    rw [hrep, zero_add]
  · unfold RingBuffer.add
    rw [hcap1, if_pos hd]
    simp only [hdm]
    rw [getD_set_self _ _ _ (by simp [hd]), List.set_set]

theorem setOne_get_same (p : Params) (nm : ParamName) (v : ℚ) :
    (p.setOne nm v).get nm = v := by
  cases nm <;> rfl

theorem setOne_get_ne (p : Params) (nm nm' : ParamName) (v : ℚ)
    (hne : nm ≠ nm') : (p.setOne nm' v).get nm = p.get nm := by
  cases nm <;> cases nm' <;> first | exact absurd rfl hne | rfl

theorem foldl_setOne_get_not_mem :
    ∀ (m : List (ParamName × ℚ)) (q : Params) (nm : ParamName),
      nm ∉ m.map Prod.fst →
      (m.foldl (fun acc e => acc.setOne e.1 e.2) q).get nm = q.get nm := by
  intro m
  induction m with
  | nil => intro q nm _; rfl
  | cons x tl ih =>
    intro q nm hnm
    simp only [List.map_cons, List.mem_cons] at hnm
    push_neg at hnm
    rw [List.foldl_cons, ih _ nm hnm.2, setOne_get_ne _ _ _ _ hnm.1]

theorem foldl_setOne_get_mem :
    ∀ (m : List (ParamName × ℚ)) (q : Params) (e : ParamName × ℚ),
      (m.map Prod.fst).Nodup → e ∈ m →
      (m.foldl (fun acc e => acc.setOne e.1 e.2) q).get e.1 = e.2 := by
  intro m
  induction m with
  | nil => intro q e _ he; exact absurd he (List.not_mem_nil e)
  | cons x tl ih =>
    intro q e hnd he
    rw [List.map_cons, List.nodup_cons] at hnd
    rw [List.foldl_cons]
    rcases List.mem_cons.mp he with he1 | he2
    · subst he1
      rw [foldl_setOne_get_not_mem tl _ e.1 hnd.1]
      exact setOne_get_same q e.1 e.2
    · exact ih _ e hnd.2 he2

theorem stepOnce_rest (h : ℚ) (k : ℕ) :
    stepOnce defaultParams h k (restState defaultParams) (zeroSched k) =
      .ok (restState defaultParams, false) := by
  norm_num [stepOnce, gatingStep, eulerVal, gatingDeriv, membraneDeriv,
    XVal.add, XVal.mul, XVal.sub, XVal.div, defaultParams, restState, zeroSched]

theorem rest_fixed_updateAux (h : ℚ) :
    ∀ n k, updateAux defaultParams h zeroSched k n (restState defaultParams) =
      .ok (restState defaultParams, []) := by
  intro n
  induction n with
  | zero => intro k; rfl
  | succ n ih =>
    intro k
    rw [updateAux_succ_ok (stepOnce_rest h k), ih (k + 1)]
    rfl

/- ===== Claim theorems ===== -/

/-- Claim C1: when the module init operation runs it registers exactly one
neuron-model factory with the host model registry, under the model name
iaf_cond_nmda_deco2014, and the name operation returns the module identifier
iaf_cond_nmda_deco2014module; every call to init performs the same single
registration. -/
theorem claim_C1_init_registers_one_model :
    ∀ (m : ModuleObj) (i : SLIInterpreter) (r : ModelRegistry),
      iaf_cond_nmda_deco2014module.init m i r =
          r ++ [⟨"iaf_cond_nmda_deco2014"⟩] ∧
        iaf_cond_nmda_deco2014module.name m = "iaf_cond_nmda_deco2014module" := by
  intro m i r
  exact ⟨rfl, rfl⟩

/-- Claim C2: if any entry of the requested mapping is invalid for its
declared domain, set_parameters fails with an InvalidParameterError and the
Parameter Set afterwards equals its pre-call value in every entry
(all-or-nothing, no partial update). -/
theorem claim_C2_set_parameters_atomic (p : Params) (m : List (ParamName × ℚ))
    (hbad : ∃ e ∈ m, paramValid e.1 e.2 = false) :
    (∃ err, (set_parameters p m).1 = some err) ∧
      ∀ nm, ((set_parameters p m).2).get nm = p.get nm := by
  unfold set_parameters
  cases hf : m.find? (fun e => ! paramValid e.1 e.2) with
  | none =>
    exfalso
    obtain ⟨e, he, hv⟩ := hbad
    have := List.find?_eq_none.mp hf e he
    simp [hv] at this
  | some e0 =>
    exact ⟨⟨⟨e0.1, e0.2, "value outside declared domain"⟩, rfl⟩, fun nm => rfl⟩

/-- Witness for claim C2: a concrete mapping with one invalid entry among
valid ones leaves the default Parameter Set untouched and reports an error. -/
theorem claim_C2_witness :
    (∃ e ∈ invalidMapping, paramValid e.1 e.2 = false) ∧
      ((∃ err, (set_parameters defaultParams invalidMapping).1 = some err) ∧
        ∀ nm, ((set_parameters defaultParams invalidMapping).2).get nm =
          defaultParams.get nm) := by
  have hb : ∃ e ∈ invalidMapping, paramValid e.1 e.2 = false := by decide
  exact ⟨hb, claim_C2_set_parameters_atomic defaultParams invalidMapping hb⟩

/-- Claim C3: two Neuron Instances with identical parameters, identical
initial state and buffers, fed identical event sequences and driven by
identical update calls, produce identical trajectories at every step. -/
theorem claim_C3_deterministic_runs (h : ℚ) (sched1 sched2 : ℕ → List Event)
    (i1 i2 : NeuronInstance)
    (hP : i1.params = i2.params) (hS : i1.st = i2.st)
    (hA : i1.bufAMPA = i2.bufAMPA) (hN : i1.bufNMDA = i2.bufNMDA)
    (hG : i1.bufGABA = i2.bufGABA) (hC : i1.bufCurr = i2.bufCurr)
    (hsched : ∀ j, sched1 j = sched2 j) :
    ∀ n k, runInst h sched1 k n i1 = runInst h sched2 k n i2 := by
  have hi : i1 = i2 := by
    cases i1
    cases i2
    simp_all
  have hs : sched1 = sched2 := funext hsched
  subst hi
  subst hs
  intro n k
  rfl

/-- Witness for claim C3: two identically constructed instances on the empty
event schedule run identically. -/
theorem claim_C3_witness :
    (NeuronInstance.construct defaultParams 4).params =
        (NeuronInstance.construct defaultParams 4).params ∧
      ∀ n k, runInst 1 emptyEvSched k n (NeuronInstance.construct defaultParams 4) =
        runInst 1 emptyEvSched k n (NeuronInstance.construct defaultParams 4) :=
  ⟨rfl, claim_C3_deterministic_runs 1 emptyEvSched emptyEvSched
    (NeuronInstance.construct defaultParams 4)
    (NeuronInstance.construct defaultParams 4)
    rfl rfl rfl rfl rfl rfl (fun j => rfl)⟩

/-- Claim C4: during update(from, to), if the integration of the step reached
in state stk produces a non-finite intermediate for some variable, the whole
update call aborts with a NumericalInstabilityError identifying that step and
variable; the error result carries no state, so the non-finite value is never
replaced by a default or clamped value. -/
theorem claim_C4_update_aborts_on_nonfinite (p : Params) (h : ℚ)
    (sched : ℕ → Inputs) (fromStep toStep k : ℕ) (st stk : State)
    (log : List ℕ) (var : VarName)
    (hk1 : fromStep ≤ k) (hk2 : k < toStep)
    (hreach : update p h sched fromStep k st = .ok (stk, log))
    (hnf : stepNonfinVar p h stk (sched k) = some var) :
    update p h sched fromStep toStep st = .error ⟨k, var⟩ := by
  unfold update at hreach ⊢
  have hfk : fromStep + (k - fromStep) = k := by omega
  have hse : stepOnce p h (fromStep + (k - fromStep)) stk
      (sched (fromStep + (k - fromStep))) = .error ⟨k, var⟩ := by
    rw [hfk]
    exact stepOnce_error_of_nonfin hnf
  exact updateAux_extend_error p h sched (k - fromStep) fromStep st stk log
    ⟨k, var⟩ (toStep - fromStep) hreach hse (by omega)

/-- Witness for claim C4: with a zero AMPA time constant the very first step
divides by zero, and update(0, 1) aborts with the error naming step 0 and the
AMPA gating variable. -/
theorem claim_C4_witness :
    (update badTauParams 1 zeroSched 0 0 (restState badTauParams) =
        .ok (restState badTauParams, []) ∧
      stepNonfinVar badTauParams 1 (restState badTauParams) (zeroSched 0) =
        some .s_AMPA) ∧
      update badTauParams 1 zeroSched 0 1 (restState badTauParams) =
        .error ⟨0, .s_AMPA⟩ := by
  have h1 : update badTauParams 1 zeroSched 0 0 (restState badTauParams) =
      .ok (restState badTauParams, []) := rfl
  have h2 : stepNonfinVar badTauParams 1 (restState badTauParams)
      (zeroSched 0) = some .s_AMPA := by
    norm_num [stepNonfinVar, gatingStep, eulerVal, gatingDeriv, membraneDeriv,
      XVal.add, XVal.mul, XVal.sub, XVal.div, badTauParams, defaultParams,
      restState, zeroSched]
  exact ⟨⟨h1, h2⟩, claim_C4_update_aborts_on_nonfinite badTauParams 1 zeroSched
    0 1 0 (restState badTauParams) (restState badTauParams) [] .s_AMPA
    (le_refl 0) Nat.zero_lt_one h1 h2⟩

/-- Claim C5: when the Integrator detects a threshold crossing at step k, the
potential equals the configured reset value exactly at step k plus one, and at
every subsequent step taken while the refractory countdown is positive the
potential stays at the reset value while the gating variables follow the same
integration step as outside the refractory period. -/
theorem claim_C5_spike_reset_refractory (p : Params) (h : ℚ)
    (sched : ℕ → Inputs) (st0 : State) (k : ℕ) (st' : State)
    (hk : stepRes p h sched st0 (k + 1) = some (st', true)) :
    st'.V = p.V_reset ∧ st'.refr = p.t_ref ∧
      ∀ j stj bj st'' b'',
        stepRes p h sched st0 (k + 1 + j) = some (stj, bj) →
        0 < stj.refr →
        stepRes p h sched st0 (k + 1 + j + 1) = some (st'', b'') →
        st''.V = p.V_reset ∧
          gatingStep p h stj (sched (k + 1 + j)) =
            (XVal.fin st''.s_AMPA, XVal.fin st''.s_NMDA, XVal.fin st''.s_GABA) := by
  obtain ⟨stk, b, hres, hstep⟩ := stepRes_succ hk
  obtain ⟨hV, hR⟩ := stepOnce_spike hstep
  refine ⟨hV, hR, ?_⟩
  intro j stj bj st'' b'' hres1 hrefr hres2
  obtain ⟨stx, bx, hresx, hstepx⟩ := stepRes_succ hres2
  rw [hres1] at hresx
  simp only [Option.some.injEq, Prod.mk.injEq] at hresx
  rw [← hresx.1] at hstepx
  obtain ⟨hV2, hB, hGat⟩ := stepOnce_refractory hrefr hstepx
  exact ⟨hV2, hGat⟩

/-- Witness for claim C5: a strong current event makes the first step cross
threshold; the resulting state has the potential at the reset value and the
refractory countdown loaded. -/
theorem claim_C5_witness :
    stepRes defaultParams 1 bigCurrSched (restState defaultParams) 1 =
        some (spikeSt, true) ∧
      (spikeSt.V = defaultParams.V_reset ∧ spikeSt.refr = defaultParams.t_ref ∧
        ∀ j stj bj st'' b'',
          stepRes defaultParams 1 bigCurrSched (restState defaultParams)
              (1 + j) = some (stj, bj) →
          0 < stj.refr →
          stepRes defaultParams 1 bigCurrSched (restState defaultParams)
              (1 + j + 1) = some (st'', b'') →
          st''.V = defaultParams.V_reset ∧
            gatingStep defaultParams 1 stj (bigCurrSched (1 + j)) =
              (XVal.fin st''.s_AMPA, XVal.fin st''.s_NMDA,
                XVal.fin st''.s_GABA)) := by
  have hk : stepRes defaultParams 1 bigCurrSched (restState defaultParams) 1 =
      some (spikeSt, true) := by
    norm_num [stepRes, stepOnce, gatingStep, eulerVal, gatingDeriv,
      membraneDeriv, XVal.add, XVal.mul, XVal.sub, XVal.div, defaultParams,
      restState, bigCurrSched, spikeSt, Except.toOption]
  exact ⟨hk, claim_C5_spike_reset_refractory defaultParams 1 bigCurrSched
    (restState defaultParams) 0 spikeSt hk⟩

/-- Claim C6: with default parameters, zero input and the initial State
Vector at the rest potential, every number N of update steps leaves the State
Vector unchanged and emits no spike events (rest is a fixed point). -/
theorem claim_C6_rest_fixed_point (h : ℚ) (N : ℕ) :
    update defaultParams h zeroSched 0 N (restState defaultParams) =
      .ok (restState defaultParams, []) := by
  unfold update
  exact rest_fixed_updateAux h (N - 0) 0

/-- Claim C7: events added to the same slot accumulate by summation: adding
w1 and then w2 at delay d to a fresh buffer and draining after d steps
returns w1 plus w2, not w2 alone. -/
theorem claim_C7_ringbuffer_accumulates (cap d : ℕ) (w1 w2 : ℚ)
    (hd : d < cap) :
    ∃ b1 b2, (RingBuffer.mk0 cap).add d w1 = .ok b1 ∧ b1.add d w2 = .ok b2 ∧
      ((b2.drainN d).drain).1 = w1 + w2 := by
  obtain ⟨h1, h2⟩ := mk0_add_twice cap d w1 w2 hd
  refine ⟨_, _, h1, h2, ?_⟩
  set b2 : RingBuffer := ⟨(List.replicate cap (0 : ℚ)).set d (w1 + w2), 0⟩
    with hb2
  have hcap2 : b2.capacity = cap := by simp [hb2, RingBuffer.capacity]
  have hc : 0 < cap := by omega
  have hptr : (b2.drainN d).readPtr = d := by
    rw [RingBuffer.drainN_readPtr b2 (by rw [hcap2]; exact hc) d
      (by rw [hcap2]; exact hc)]
    rw [hcap2]
    show (0 + d) % cap = d
    rw [Nat.zero_add, Nat.mod_eq_of_lt hd]
  have hcapN : (b2.drainN d).capacity = cap := by
    rw [RingBuffer.drainN_capacity, hcap2]
  have hslot : (b2.drainN d).slots.getD d 0 = b2.slots.getD d 0 := by
    apply RingBuffer.drainN_getD_preserved
    intro i hi
    rw [hcap2]
    show (0 + i) % cap ≠ d
    rw [Nat.zero_add, Nat.mod_eq_of_lt (lt_trans hi hd)]
    omega
  show (b2.drainN d).slots.getD
    ((b2.drainN d).readPtr % (b2.drainN d).capacity) 0 = w1 + w2
  rw [hptr, hcapN, Nat.mod_eq_of_lt hd, hslot, hb2]
  exact getD_set_self _ _ _ (by simp [hd])

/-- Witness for claim C7: on a fresh three-slot buffer, adding 2 then 5 at
delay 1 and draining after one step returns 7. -/
theorem claim_C7_witness :
    1 < 3 ∧
      ∃ b1 b2, (RingBuffer.mk0 3).add 1 2 = .ok b1 ∧ b1.add 1 5 = .ok b2 ∧
        ((b2.drainN 1).drain).1 = 2 + 5 :=
  ⟨by decide, claim_C7_ringbuffer_accumulates 3 1 2 5 (by decide)⟩

/-- Claim C8: drain returns the value at the current read pointer, zeroes
that slot, and advances the pointer by one step; draining the same slot again
without intervening adds (after a full cycle of the buffer) returns zero. -/
theorem claim_C8_ringbuffer_drain (b : RingBuffer) (hc : 0 < b.capacity)
    (hp : b.readPtr < b.capacity) :
    (b.drain).1 = b.slots.getD b.readPtr 0 ∧
      (b.drain).2.slots.getD b.readPtr 0 = 0 ∧
      (b.drain).2.readPtr = (b.readPtr + 1) % b.capacity ∧
      (((b.drain).2.drainN (b.capacity - 1)).drain).1 = 0 := by
  have hlen : b.readPtr < b.slots.length := hp
  have hzero : (b.drain).2.slots.getD b.readPtr 0 = 0 := by
    show (b.slots.set (b.readPtr % b.capacity) 0).getD b.readPtr 0 = 0
    rw [Nat.mod_eq_of_lt hp]
    exact getD_set_self _ _ _ hlen
  refine ⟨?_, hzero, rfl, ?_⟩
  · show b.slots.getD (b.readPtr % b.capacity) 0 = _
    rw [Nat.mod_eq_of_lt hp]
  · have hcap1 : (b.drain).2.capacity = b.capacity := RingBuffer.capacity_drain b
    have hp1 : (b.drain).2.readPtr < (b.drain).2.capacity := by
      rw [hcap1]
      exact Nat.mod_lt _ hc
    have hptr : ((b.drain).2.drainN (b.capacity - 1)).readPtr = b.readPtr := by
      rw [RingBuffer.drainN_readPtr (b.drain).2 (by rw [hcap1]; exact hc)
        (b.capacity - 1) hp1, hcap1]
      show ((b.readPtr + 1) % b.capacity + (b.capacity - 1)) % b.capacity = _
      rw [Nat.mod_add_mod]
      have harr : b.readPtr + 1 + (b.capacity - 1) = b.readPtr + b.capacity := by
        omega
      rw [harr, Nat.add_mod_right, Nat.mod_eq_of_lt hp]
    have hcapN : ((b.drain).2.drainN (b.capacity - 1)).capacity = b.capacity := by
      rw [RingBuffer.drainN_capacity, hcap1]
    have hzN : ((b.drain).2.drainN (b.capacity - 1)).slots.getD b.readPtr 0 = 0 :=
      RingBuffer.drainN_getD_zero _ _ _ hzero
    show ((b.drain).2.drainN (b.capacity - 1)).slots.getD
      (((b.drain).2.drainN (b.capacity - 1)).readPtr %
        ((b.drain).2.drainN (b.capacity - 1)).capacity) 0 = 0
    rw [hptr, hcapN, Nat.mod_eq_of_lt hp]
    exact hzN

/-- Witness for claim C8: on a concrete two-slot buffer holding 3 and 5 the
drain semantics hold, and the drained slot reads zero one full cycle later. -/
theorem claim_C8_witness :
    (0 < demoBuf.capacity ∧ demoBuf.readPtr < demoBuf.capacity) ∧
      ((demoBuf.drain).1 = demoBuf.slots.getD demoBuf.readPtr 0 ∧
        (demoBuf.drain).2.slots.getD demoBuf.readPtr 0 = 0 ∧
        (demoBuf.drain).2.readPtr = (demoBuf.readPtr + 1) % demoBuf.capacity ∧
        (((demoBuf.drain).2.drainN (demoBuf.capacity - 1)).drain).1 = 0) := by
  have h1 : 0 < demoBuf.capacity := by decide
  have h2 : demoBuf.readPtr < demoBuf.capacity := by decide
  exact ⟨⟨h1, h2⟩, claim_C8_ringbuffer_drain demoBuf h1 h2⟩

/-- Claim C9: for every valid full parameter mapping, get_parameters called
right after a successful set_parameters returns exactly the mapping that was
set. -/
theorem claim_C9_set_then_get_roundtrip (p : Params)
    (m : List (ParamName × ℚ))
    (hvalid : ∀ e ∈ m, paramValid e.1 e.2 = true)
    (hfull : m.map Prod.fst = allParamNames) :
    (set_parameters p m).1 = none ∧
      get_parameters (set_parameters p m).2 = m := by
  have hnd : (m.map Prod.fst).Nodup := by
    rw [hfull]
    decide
  have hf : m.find? (fun e => ! paramValid e.1 e.2) = none := by
    apply List.find?_eq_none.mpr
    intro e he
    simp [hvalid e he]
  unfold set_parameters
  rw [hf]
  refine ⟨rfl, ?_⟩
  unfold get_parameters
  rw [← hfull, List.map_map]
  have hpt : ∀ e ∈ m,
      ((fun nm => (nm, (m.foldl (fun acc e => acc.setOne e.1 e.2) p).get nm)) ∘
        Prod.fst) e = id e := by
    intro e he
    show (e.1, (m.foldl (fun acc e => acc.setOne e.1 e.2) p).get e.1) = e
    rw [foldl_setOne_get_mem m p e hnd he]
  rw [List.map_congr_left hpt, List.map_id]

/-- Witness for claim C9: setting a concrete full valid mapping on the
default Parameter Set and reading back returns the mapping exactly. -/
theorem claim_C9_witness :
    ((∀ e ∈ fullValidMapping, paramValid e.1 e.2 = true) ∧
      fullValidMapping.map Prod.fst = allParamNames) ∧
      ((set_parameters defaultParams fullValidMapping).1 = none ∧
        get_parameters (set_parameters defaultParams fullValidMapping).2 =
          fullValidMapping) := by
  have h1 : ∀ e ∈ fullValidMapping, paramValid e.1 e.2 = true := by decide
  have h2 : fullValidMapping.map Prod.fst = allParamNames := by decide
  exact ⟨⟨h1, h2⟩, claim_C9_set_then_get_roundtrip defaultParams
    fullValidMapping h1 h2⟩

/-- Claim C10: the module commandstring operation always returns the constant
string telling the interpreter to run the SLI initialization script, for
every module state, so every load of the module triggers that script. -/
theorem claim_C10_commandstring_constant :
    ∀ (m m' : ModuleObj),
      iaf_cond_nmda_deco2014module.commandstring m =
          "(iaf_cond_nmda_deco2014module-init) run" ∧
        iaf_cond_nmda_deco2014module.commandstring m =
          iaf_cond_nmda_deco2014module.commandstring m' := by
  intro m m'
  exact ⟨rfl, rfl⟩
